import Mathlib

/-!
Shallow embedding of `app/services/knowledge_graph.py` (class
`KnowledgeGraphBuilder`, backed by a `networkx.MultiDiGraph`).

Modelling conventions:
* A Python entity record (`Dict[str, Any]`) is modelled as an association
  list `List (String × String)`; record values in this repository are the
  extracted text spans and auxiliary string fields.  `item.get(k)` is
  association-list lookup returning `Option String`; Python truthiness of
  such an optional value is "present and non-empty".
* A `networkx.MultiDiGraph` is modelled as an insertion-ordered association
  list of nodes (id to attribute record) plus a list of edges (a multigraph:
  parallel edges are kept as duplicate list entries).  Node attributes set
  by the code are `label`, `type` and `meta`; nodes created implicitly by
  `add_edge` carry none of them, hence the `Option` fields.
* Python `str.strip()` is modelled by `pyStrip`, dropping from both ends
  every code point that Python `str.isspace()` accepts.
* `f"{x}"` applied to a possibly-`None` value is `pyRepr`: `None` formats
  as the string "None".
-/

/-- One Python entity record: an ordered association list of string fields. -/
def Record : Type := List (String × String)

instance : DecidableEq Record := by
  unfold Record
  infer_instance

/-- Dictionary lookup `item.get(k)`: the value of the first binding of `k`. -/
def Record.get (item : Record) (k : String) : Option String :=
  (List.find? (fun kv => kv.1 == k) item).map (fun kv => kv.2)

/-- Python truthiness of an optional string: `None` and `""` are falsy. -/
def truthyOpt : Option String → Bool
  | Option.none => false
  | Option.some s => s ≠ ""

/-- Python `a or b` on two optional strings: `a` if truthy, else `b`. -/
def pyOr (a b : Option String) : Option String :=
  if truthyOpt a then a else b

/-- Python f-string interpolation of a possibly-missing value. -/
def pyRepr : Option String → String
  | Option.none => "None"
  | Option.some s => s

/-- The characters stripped by Python `str.strip()`: exactly the code
points for which `str.isspace()` holds — U+0009 to U+000D, U+001C to
U+001F, space, U+0085, U+00A0, U+1680, U+2000 to U+200A, U+2028, U+2029,
U+202F, U+205F and U+3000. -/
def isPyWhitespace (c : Char) : Bool :=
  decide ((9 ≤ c.toNat ∧ c.toNat ≤ 13) ∨ (28 ≤ c.toNat ∧ c.toNat ≤ 31) ∨
    c.toNat = 32 ∨ c.toNat = 133 ∨ c.toNat = 160 ∨ c.toNat = 0x1680 ∨
    (0x2000 ≤ c.toNat ∧ c.toNat ≤ 0x200a) ∨ c.toNat = 0x2028 ∨
    c.toNat = 0x2029 ∨ c.toNat = 0x202f ∨ c.toNat = 0x205f ∨ c.toNat = 0x3000)

/-- Python `str.strip()`: drop whitespace from both ends of the string. -/
def pyStrip (s : String) : String :=
  ⟨((s.data.dropWhile isPyWhitespace).reverse.dropWhile isPyWhitespace).reverse⟩

/-- Attributes stored on a graph node.  `add_entities` sets all three;
nodes auto-created by `add_edge` have none of them. -/
structure NodeData where
  label : Option String
  type : Option String
  meta : Option Record
deriving DecidableEq

/-- The attribute record of an implicitly created node (no attributes). -/
def NodeData.empty : NodeData := ⟨Option.none, Option.none, Option.none⟩

/-- One directed typed edge of the multigraph. -/
structure Edge where
  source : String
  target : String
  type : Option String
deriving DecidableEq

/-- The `networkx.MultiDiGraph` held by the builder: insertion-ordered nodes
with attributes, and a list of edges (parallel edges kept). -/
structure Graph where
  nodes : List (String × NodeData)
  edges : List Edge
deriving DecidableEq

/-- The empty graph, as produced by `nx.MultiDiGraph()`. -/
def Graph.empty : Graph := ⟨[], []⟩

/-- `graph.has_node(id)`. -/
def Graph.hasNode (g : Graph) (id : String) : Bool :=
  g.nodes.any (fun p => p.1 == id)

/-- `self._node_id(label, node_type)`: the string
`f"{node_type}:{label}".strip()`. -/
def node_id (label node_type : String) : String :=
  pyStrip (node_type ++ ":" ++ label)

/-- The resolved display text `item.get("text") or item.get("name")`
(still possibly `None` or empty: `infer_relations_from_entities` uses it
without any truthiness check). -/
def rawName (item : Record) : Option String :=
  pyOr (item.get "text") (item.get "name")

/-- The display text actually accepted by `add_entities`: the resolved
text when truthy, otherwise `none` (the record is skipped). -/
def displayText (item : Record) : Option String :=
  if truthyOpt (rawName item) then rawName item else Option.none

/-- The `meta` attribute stored for a record: every field except
`text` and `name`. -/
def metaOf (item : Record) : Record :=
  List.filter (fun kv => ¬(kv.1 == "text" || kv.1 == "name")) item

/-- Processing of one record by `add_entities`: resolve the display text,
skip silently if falsy, else add the node if its id is not present yet. -/
def addEntityItem (entity_type : String) (g : Graph) (item : Record) : Graph :=
  match displayText item with
  | Option.none => g
  | Option.some name =>
    let nid := node_id name entity_type
    if g.hasNode nid then g
    else { g with
           nodes := g.nodes ++
             [(nid, ⟨Option.some name, Option.some entity_type, Option.some (metaOf item)⟩)] }

/-- `add_entities(entities)`: iterate the mapping in insertion order. -/
def add_entities (g : Graph) (entities : List (String × List Record)) : Graph :=
  entities.foldl (fun g p => p.2.foldl (addEntityItem p.1) g) g

/-- `graph.add_edge(source, target, type=t)`: create missing endpoint nodes
with no attributes, then append the edge (multigraph: never deduplicated). -/
def Graph.addEdge (g : Graph) (s t : String) (ty : Option String) : Graph :=
  let g1 := if g.hasNode s then g else { g with nodes := g.nodes ++ [(s, NodeData.empty)] }
  let g2 := if g1.hasNode t then g1 else { g1 with nodes := g1.nodes ++ [(t, NodeData.empty)] }
  { g2 with edges := g2.edges ++ [⟨s, t, ty⟩] }

/-- `add_relations(relations)`: one edge per `(source, target, type)` tuple. -/
def add_relations (g : Graph) (relations : List (String × String × String)) : Graph :=
  relations.foldl (fun g r => g.addEdge r.1 r.2.1 (Option.some r.2.2)) g

/-- `entities.get(key, [])`. -/
def entGet (entities : List (String × List Record)) (k : String) : List Record :=
  (Option.map (fun p => p.2) (List.find? (fun p => p.1 == k) entities)).getD []

/-- The node id `infer_relations_from_entities` derives for a record of a
given type: no skipping, a falsy resolved text is formatted as-is. -/
def inferNodeId (ty : String) (item : Record) : String :=
  node_id (pyRepr (rawName item)) ty

/-- Body of the per-case loop of `infer_relations_from_entities`: edges from
the case to every statute (`cites`), to every court (`heard_by`), from every
party to the case (`party_in`), and to every date (`decided_on`). -/
def inferCase (statutes courts parties dates : List Record) (g : Graph)
    (case : Record) : Graph :=
  let caseNode := inferNodeId "case" case
  let g1 := statutes.foldl
    (fun g st => g.addEdge caseNode (inferNodeId "statute" st) (Option.some "cites")) g
  let g2 := courts.foldl
    (fun g c => g.addEdge caseNode (inferNodeId "court" c) (Option.some "heard_by")) g1
  let g3 := parties.foldl
    (fun g p => g.addEdge (inferNodeId "party" p) caseNode (Option.some "party_in")) g2
  dates.foldl
    (fun g d => g.addEdge caseNode (inferNodeId "date" d) (Option.some "decided_on")) g3

/-- `infer_relations_from_entities(entities)`: read the five fixed buckets
and run the per-case cross-product loop. -/
def infer_relations_from_entities (g : Graph)
    (entities : List (String × List Record)) : Graph :=
  let statutes := entGet entities "statutes"
  let cases := entGet entities "cases"
  let parties := entGet entities "parties"
  let courts := entGet entities "courts"
  let dates := entGet entities "dates"
  cases.foldl (inferCase statutes courts parties dates) g

/-- `build_from_document(document_id, entities)`: reset, add entities,
infer relations (the returned snapshot is `to_json` of this state). -/
def build_from_document (_document_id : String)
    (entities : List (String × List Record)) : Graph :=
  infer_relations_from_entities (add_entities Graph.empty entities) entities

/-- The update `counts[t] = counts.get(t, 0) + 1` on an insertion-ordered
dictionary: bump the first binding of `t`, or append `(t, 1)`. -/
def bumpCount : List (String × Nat) → String → List (String × Nat)
  | [], t => [(t, 1)]
  | (k, n) :: rest, t =>
    if k == t then (k, n + 1) :: rest else (k, n) :: bumpCount rest t

/-- `self._nodes_by_type()`: count nodes by `data.get("type", "unknown")`. -/
def nodes_by_type (g : Graph) : List (String × Nat) :=
  g.nodes.foldl (fun counts p => bumpCount counts (p.2.type.getD "unknown")) []

/-- The result of `stats()`. -/
structure Stats where
  nodes : Nat
  edges : Nat
  by_type : List (String × Nat)
deriving DecidableEq

/-- `stats()`: current node count, edge count, and counts by type. -/
def stats (g : Graph) : Stats :=
  ⟨g.nodes.length, g.edges.length, nodes_by_type g⟩

/-- One serialized node of a snapshot:
`id`, `data.get("label")`, `data.get("type")`, `data.get("meta", \x7b\x7d)`. -/
structure JsonNode where
  id : String
  label : Option String
  type : Option String
  meta : Record
deriving DecidableEq

/-- One serialized link of a snapshot. -/
structure JsonLink where
  source : String
  target : String
  type : Option String
deriving DecidableEq

/-- A serialized graph snapshot, the return shape of `to_json`. -/
structure Snapshot where
  nodes : List JsonNode
  links : List JsonLink
deriving DecidableEq

/-- Serialization of one graph (the body of `to_json` after the operand
is chosen): nodes and edges in storage order. -/
def serialize (graph : Graph) : Snapshot :=
  ⟨graph.nodes.map (fun p => ⟨p.1, p.2.label, p.2.type, p.2.meta.getD []⟩),
   graph.edges.map (fun e => ⟨e.source, e.target, e.type⟩)⟩

/-- `to_json(g=None)`: the operand is `g or self.graph` — Python truthiness
of a networkx graph is `len(g) != 0`, its number of nodes — then serialize. -/
def to_json (self : Graph) (g : Option Graph) : Snapshot :=
  match g with
  | Option.none => serialize self
  | Option.some h => if h.nodes.length ≠ 0 then serialize h else serialize self

/-- `set(graph.predecessors(n)) | set(graph.successors(n))`: the undirected
neighborhood of `n`. -/
def Graph.nbrs (g : Graph) (n : String) : Finset String :=
  ((g.edges.filter (fun e => e.target == n)).map Edge.source).toFinset ∪
  ((g.edges.filter (fun e => e.source == n)).map Edge.target).toFinset

/-- One frontier-expansion round: the union of the undirected neighborhoods
of all frontier nodes. -/
def frontierStep (g : Graph) (f : Finset String) : Finset String :=
  f.biUnion g.nbrs

/-- The `for _ in range(depth)` loop of `get_subgraph`, acting on the pair
(accumulated nodes, frontier): each round sets
`next_frontier = frontierStep frontier`, `nodes |= next_frontier`,
`frontier = next_frontier`. -/
def traverse (g : Graph) : Nat → Finset String × Finset String → Finset String × Finset String
  | 0, s => s
  | k + 1, s =>
    let nf := frontierStep g s.2
    traverse g k (s.1 ∪ nf, nf)

/-- `graph.subgraph(S).copy()`: the induced subgraph on node set `S`, in
the storage order of the original graph. -/
def Graph.inducedOn (g : Graph) (s : Finset String) : Graph :=
  ⟨g.nodes.filter (fun p => p.1 ∈ s),
   g.edges.filter (fun e => e.source ∈ s ∧ e.target ∈ s)⟩

/-- The candidate center nodes of `get_subgraph`: label equals the query
label and, when a node type is given, type equals it. -/
def centerCandidates (g : Graph) (center_node_label : String)
    (node_type : Option String) : List (String × NodeData) :=
  g.nodes.filter (fun p =>
    p.2.label == Option.some center_node_label &&
      (node_type.isNone || p.2.type == node_type))

/-- `get_subgraph(center_node_label, node_type=None, depth=2)`: find the
first matching center, run `depth` expansion rounds (`range` of a negative
Python int is empty, hence `Int.toNat`), serialize the induced subgraph. -/
def get_subgraph (g : Graph) (center_node_label : String)
    (node_type : Option String) (depth : Int) : Snapshot :=
  match centerCandidates g center_node_label node_type with
  | [] => ⟨[], []⟩
  | c :: _ =>
    let nodes := (traverse g depth.toNat ({c.1}, {c.1})).1
    to_json g (Option.some (g.inducedOn nodes))

/-- One engine operation, for stating invariants over every reachable
state of a `KnowledgeGraphBuilder` instance. -/
inductive Op
  | reset
  | addEnts (entities : List (String × List Record))
  | addRels (relations : List (String × String × String))
  | infer (entities : List (String × List Record))
  | build (document_id : String) (entities : List (String × List Record))

/-- The state transition of one engine operation. -/
def applyOp (g : Graph) : Op → Graph
  | Op.reset => Graph.empty
  | Op.addEnts e => add_entities g e
  | Op.addRels r => add_relations g r
  | Op.infer e => infer_relations_from_entities g e
  | Op.build d e => build_from_document d e

/-- The engine state after a sequence of operations on a fresh instance. -/
def applyOps (ops : List Op) : Graph :=
  ops.foldl applyOp Graph.empty

/-!  Spec-side definitions used to state the claims. -/

/-- Lookup in a `by_type` mapping, defaulting to zero. -/
def lookupCount (counts : List (String × Nat)) (k : String) : Nat :=
  ((List.find? (fun p => p.1 == k) counts).map (fun p => p.2)).getD 0

/-- Display-text rule in the words of the amended claim C5: use the
`text` field when it is present and non-empty, otherwise the `name`
field when it is present and non-empty, otherwise skip the record. -/
def specDisplayText (item : Record) : Option String :=
  match item.get "text" with
  | Option.some s =>
    if s ≠ "" then Option.some s
    else match item.get "name" with
      | Option.some n => if n ≠ "" then Option.some n else Option.none
      | Option.none => Option.none
  | Option.none =>
    match item.get "name" with
    | Option.some n => if n ≠ "" then Option.some n else Option.none
    | Option.none => Option.none

/-- The edges the claim about `infer_relations_from_entities` predicts for
one case record: one `cites` edge to every statute, one `heard_by` edge to
every court, one `party_in` edge from every party, one `decided_on` edge to
every date. -/
def inferredEdgesFor (statutes courts parties dates : List Record)
    (case : Record) : List Edge :=
  statutes.map (fun st =>
    ⟨inferNodeId "case" case, inferNodeId "statute" st, Option.some "cites"⟩) ++
  courts.map (fun c =>
    ⟨inferNodeId "case" case, inferNodeId "court" c, Option.some "heard_by"⟩) ++
  parties.map (fun p =>
    ⟨inferNodeId "party" p, inferNodeId "case" case, Option.some "party_in"⟩) ++
  dates.map (fun d =>
    ⟨inferNodeId "case" case, inferNodeId "date" d, Option.some "decided_on"⟩)

/-- The undirected ball of radius `k` around `c`: the monotone closure that
a frontier restricted to newly-discovered nodes would accumulate. -/
def ball (g : Graph) (c : String) : Nat → Finset String
  | 0 => {c}
  | k + 1 => ball g c k ∪ frontierStep g (ball g c k)

/-- The frontier of the `get_subgraph` loop after `k` rounds. -/
def fSeq (g : Graph) (c : String) : Nat → Finset String
  | 0 => {c}
  | k + 1 => frontierStep g (fSeq g c k)

/-- The accumulated node set of the `get_subgraph` loop after `k` rounds. -/
def aSeq (g : Graph) (c : String) : Nat → Finset String
  | 0 => {c}
  | k + 1 => aSeq g c k ∪ fSeq g c (k + 1)

/-- Every edge endpoint is a node of the graph (no dangling endpoints). -/
def edgesClosed (g : Graph) : Prop :=
  ∀ e ∈ g.edges, g.hasNode e.source = true ∧ g.hasNode e.target = true

/-- A small concrete engine state: a case node `case:A`, a statute node
`statute:B`, and one `cites` edge between them. -/
def exampleGraph : Graph :=
  add_relations
    (add_entities Graph.empty
      [("case", [[("text", "A")]]), ("statute", [[("text", "B")]])])
    [("case:A", "statute:B", "cites")]

/-!  Helper lemmas. -/

theorem lookupCount_nil (t : String) : lookupCount [] t = 0 := rfl

theorem lookupCount_cons_eq (a t : String) (n : Nat)
    (rest : List (String × Nat)) (h : a = t) :
    lookupCount ((a, n) :: rest) t = n := by
  simp [lookupCount, List.find?_cons_of_pos, h]

theorem lookupCount_cons_ne (a t : String) (n : Nat)
    (rest : List (String × Nat)) (h : ¬ a = t) :
    lookupCount ((a, n) :: rest) t = lookupCount rest t := by
  simp only [lookupCount]
  rw [List.find?_cons_of_neg]
  simpa using h

theorem lookupCount_bumpCount (counts : List (String × Nat)) (k t : String) :
    lookupCount (bumpCount counts k) t =
      lookupCount counts t + (if k == t then 1 else 0) := by
  induction counts with
  | nil =>
    by_cases h : k = t
    · subst h
      simp [bumpCount, lookupCount_cons_eq k k 1 [] rfl, lookupCount_nil]
    · simp [bumpCount, lookupCount_cons_ne k t 1 [] h, lookupCount_nil, h]
  | cons p rest ih =>
    obtain ⟨a, n⟩ := p
    by_cases hak : a = k
    · subst hak
      have hstep : bumpCount ((a, n) :: rest) a = (a, n + 1) :: rest := by
        simp [bumpCount]
      by_cases hat : a = t
      · subst hat
        rw [hstep, lookupCount_cons_eq a a (n + 1) rest rfl,
          lookupCount_cons_eq a a n rest rfl, if_pos (by simp)]
      · have hkt : ¬ ((a == t) = true) := by simpa using hat
        rw [hstep, lookupCount_cons_ne a t (n + 1) rest hat,
          lookupCount_cons_ne a t n rest hat, if_neg hkt, Nat.add_zero]
    · have hb : (a == k) = false := by simpa using hak
      have hstep : bumpCount ((a, n) :: rest) k = (a, n) :: bumpCount rest k := by
        simp [bumpCount, hb]
      by_cases hat : a = t
      · subst hat
        have hkt : ¬ ((k == a) = true) := by simpa using Ne.symm hak
        rw [hstep, lookupCount_cons_eq a a n (bumpCount rest k) rfl,
          lookupCount_cons_eq a a n rest rfl, if_neg hkt, Nat.add_zero]
      · rw [hstep, lookupCount_cons_ne a t n (bumpCount rest k) hat,
          lookupCount_cons_ne a t n rest hat, ih]

theorem dropWhile_eq_self_of_head {α : Type} (p : α → Bool) (l : List α)
    (h : ∀ c, l.head? = Option.some c → p c = false) :
    l.dropWhile p = l := by
  cases l with
  | nil => rfl
  | cons c cs =>
    rw [List.dropWhile_cons, if_neg]
    simp [h c rfl]

theorem pyStrip_eq_self (s : String)
    (h1 : s.data.dropWhile isPyWhitespace = s.data)
    (h2 : s.data.reverse.dropWhile isPyWhitespace = s.data.reverse) :
    pyStrip s = s := by
  unfold pyStrip
  rw [h1, h2, List.reverse_reverse]

/-!  C6. -/

/-- C6 counterexample: the claim says the node id is exactly the
concatenation `type ++ ":" ++ label` for all strings, including ones with
leading or trailing whitespace.  For the label `"X "` (trailing space) the
code strips the whitespace: the id is `"case:X"`, not `"case:X "`. -/
theorem node_id_strips_counterexample :
    node_id "X " "case" = "case:X" ∧ ("case:X" : String) ≠ "case" ++ ":" ++ "X " := by
  constructor
  · decide
  · decide

theorem head_not_of_dropWhile_eq_self {α : Type} (p : α → Bool) (l : List α)
    (h : l.dropWhile p = l) : ∀ c, l.head? = Option.some c → p c = false := by
  intro c hc
  cases l with
  | nil => simp at hc
  | cons a as =>
    have ha : a = c := Option.some.inj hc
    subst ha
    cases hp : p a with
    | false => rfl
    | true =>
      rw [List.dropWhile_cons, if_pos hp] at h
      have hlen : (as.dropWhile p).length = as.length + 1 := by rw [h]; rfl
      have hle : (as.dropWhile p).length ≤ as.length :=
        (List.dropWhile_sublist p).length_le
      omega

theorem pyStrip_fix_parts (s : String) (h : pyStrip s = s) :
    s.data.dropWhile isPyWhitespace = s.data ∧
      s.data.reverse.dropWhile isPyWhitespace = s.data.reverse := by
  have hdata : ((s.data.dropWhile isPyWhitespace).reverse.dropWhile
      isPyWhitespace).reverse = s.data := congrArg String.data h
  have hl1 := congrArg List.length hdata
  rw [List.length_reverse] at hl1
  have hle1 : ((s.data.dropWhile isPyWhitespace).reverse.dropWhile
        isPyWhitespace).length ≤
      (s.data.dropWhile isPyWhitespace).reverse.length :=
    (List.dropWhile_sublist _).length_le
  rw [List.length_reverse] at hle1
  have hle2 : (s.data.dropWhile isPyWhitespace).length ≤ s.data.length :=
    (List.dropWhile_sublist _).length_le
  have heq2 : (s.data.dropWhile isPyWhitespace).length = s.data.length := by
    omega
  have h1 : s.data.dropWhile isPyWhitespace = s.data :=
    (List.dropWhile_sublist _).eq_of_length heq2
  have h2 : s.data.reverse.dropWhile isPyWhitespace = s.data.reverse := by
    have hrev : (s.data.dropWhile isPyWhitespace).reverse = s.data.reverse := by
      rw [h1]
    rw [hrev] at hl1
    apply (List.dropWhile_sublist _).eq_of_length
    rw [hl1, List.length_reverse]
  exact ⟨h1, h2⟩

/-- C6 amended: the id of a created node is the concatenation
`type ++ ":" ++ label` with leading and trailing Python whitespace of the
combined string stripped; it equals the plain concatenation exactly when
the type does not begin with such whitespace and the label does not end
with it. -/
theorem node_id_plain_concat (label ty : String) :
    node_id label ty = ty ++ ":" ++ label ↔
      ((∀ c, ty.data.head? = Option.some c → isPyWhitespace c = false) ∧
        (∀ c, label.data.getLast? = Option.some c → isPyWhitespace c = false)) := by
  have hdata : (ty ++ ":" ++ label).data = ty.data ++ ':' :: label.data := by
    simp [String.data_append]
  constructor
  · intro heq
    obtain ⟨hd1, hd2⟩ := pyStrip_fix_parts (ty ++ ":" ++ label) heq
    constructor
    · intro c hc
      apply head_not_of_dropWhile_eq_self isPyWhitespace _ hd1 c
      rw [hdata]
      cases hty : ty.data with
      | nil =>
        rw [hty] at hc
        simp at hc
      | cons a as =>
        rw [hty] at hc
        have ha : a = c := Option.some.inj hc
        rw [ha]
        rfl
    · intro c hc
      apply head_not_of_dropWhile_eq_self isPyWhitespace _ hd2 c
      have hlab : label.data ≠ [] := by
        intro hnil
        rw [hnil] at hc
        simp at hc
      rw [List.head?_reverse, hdata, List.append_cons,
        List.getLast?_append_of_ne_nil _ hlab]
      exact hc
  · rintro ⟨h1, h2⟩
    show pyStrip (ty ++ ":" ++ label) = ty ++ ":" ++ label
    apply pyStrip_eq_self
    · rw [hdata]
      apply dropWhile_eq_self_of_head
      intro c hc
      cases hty : ty.data with
      | nil =>
        rw [hty, List.nil_append] at hc
        have : (':' : Char) = c := Option.some.inj hc
        subst this
        decide
      | cons a as =>
        rw [hty, List.cons_append] at hc
        have : a = c := Option.some.inj hc
        subst this
        exact h1 a (by rw [hty]; rfl)
    · rw [hdata]
      apply dropWhile_eq_self_of_head
      intro c hc
      rw [List.head?_reverse] at hc
      cases hlab : label.data with
      | nil =>
        rw [hlab] at hc
        have h3 : (ty.data ++ [':']).getLast? = Option.some ':' :=
          List.getLast?_concat ty.data
        have : (':' : Char) = c := Option.some.inj (h3 ▸ hc)
        subst this
        decide
      | cons d ds =>
        rw [hlab, List.getLast?_append_of_ne_nil _ (by simp)] at hc
        exact h2 c (by rw [hlab]; exact hc)

/-- C6 witness: at `ty = "case"`, `label = "X"` the right-hand side of the
equivalence holds, so the id is the plain concatenation. -/
theorem node_id_plain_concat_witness :
    node_id "X" "case" = "case" ++ ":" ++ "X" := by
  apply (node_id_plain_concat "X" "case").mpr
  constructor
  · intro c hc
    have : ('c' : Char) = c := Option.some.inj hc
    subst this
    decide
  · intro c hc
    have : ('X' : Char) = c := Option.some.inj hc
    subst this
    decide

/-!  C5. -/

/-- C5 counterexample: for the record with fields `text = ""` and
`name = "X"`, the `text` field is present, yet the display text resolved
by `add_entities` is `"X"` (Python `or` falls back on any falsy value,
not only on an absent field), contradicting the claim that the display
text is the value of `text` whenever that field is present. -/
theorem display_text_falsy_counterexample :
    Record.get [("text", ""), ("name", "X")] "text" = Option.some "" ∧
      displayText [("text", ""), ("name", "X")] = Option.some "X" := by
  constructor
  · decide
  · decide

/-- C5 amended: the display text is the `text` field when present and
non-empty, otherwise the `name` field when present and non-empty; records
in which both are absent or empty are skipped, and skipping is silent
(the graph is simply left unchanged). -/
theorem display_text_truthiness_rule (g : Graph) (ty : String) (item : Record) :
    displayText item = specDisplayText item ∧
      (specDisplayText item = Option.none → add_entities g [(ty, [item])] = g) := by
  have hrule : displayText item = specDisplayText item := by
    unfold displayText specDisplayText rawName pyOr truthyOpt
    cases htext : item.get "text" with
    | none =>
      cases hname : item.get "name" with
      | none => simp
      | some n =>
        by_cases hn : n = "" <;> simp [hn]
    | some s =>
      by_cases hs : s = ""
      · subst hs
        cases hname : item.get "name" with
        | none => simp
        | some n =>
          by_cases hn : n = "" <;> simp [hn]
      · simp [hs]
  refine ⟨hrule, fun hskip => ?_⟩
  have hnone : displayText item = Option.none := by rw [hrule, hskip]
  show List.foldl (addEntityItem ty) g [item] = g
  simp [List.foldl, addEntityItem, hnone]

/-- C5 witness: a record whose only field is an empty `name` is skipped
silently at a concrete graph. -/
theorem display_text_truthiness_rule_witness :
    add_entities Graph.empty [("case", [[("name", "")]])] = Graph.empty :=
  (display_text_truthiness_rule Graph.empty "case" [("name", "")]).2 (by decide)

/-!  C7. -/

theorem lookupCount_foldl_bump (t : String) (l : List (String × NodeData))
    (init : List (String × Nat)) :
    lookupCount
        (l.foldl (fun c p => bumpCount c (p.2.type.getD "unknown")) init) t =
      lookupCount init t +
        (l.filter (fun p => (p.2.type.getD "unknown") == t)).length := by
  induction l generalizing init with
  | nil => simp [lookupCount]
  | cons p l ih =>
    rw [List.foldl_cons, ih, lookupCount_bumpCount]
    by_cases hp : (p.2.type.getD "unknown") = t
    · simp [List.filter_cons, hp, Nat.add_assoc, Nat.add_comm]
    · have hb : ((p.2.type.getD "unknown") == t) = false := by simpa using hp
      simp [List.filter_cons, hb]

/-- C7 counterexample: a node inserted with the empty string as its entity
type is counted by `_nodes_by_type` under the key `""`, not under
`"unknown"` (Python `dict.get(k, default)` only falls back when the key is
absent, not when its value is empty). -/
theorem nodes_by_type_empty_type_counterexample :
    nodes_by_type (add_entities Graph.empty [("", [[("text", "x")]])]) = [("", 1)] ∧
      List.find? (fun p => p.1 == "unknown")
        (nodes_by_type (add_entities Graph.empty [("", [[("text", "x")]])])) =
        Option.none := by
  constructor
  · decide
  · decide

/-- C7 amended: for every graph state and every key `t`, the `by_type`
count at `t` is the number of nodes whose `type` attribute resolves to `t`,
where a node with no `type` attribute resolves to `"unknown"` and a node
with the empty string as its type resolves to `""` itself. -/
theorem nodes_by_type_counts (g : Graph) (t : String) :
    lookupCount (nodes_by_type g) t =
      (g.nodes.filter (fun p => (p.2.type.getD "unknown") == t)).length := by
  unfold nodes_by_type
  rw [lookupCount_foldl_bump]
  simp [lookupCount]

/-!  C10. -/

/-- C10: when `to_json` is handed an explicitly supplied graph with zero
nodes, the Python truthiness of `g or self.graph` selects the engine's own
graph, so the serialization is of the full graph; an empty snapshot arises
exactly when the engine's own graph is empty too. -/
theorem to_json_empty_arg_falls_back (g h : Graph) (hemp : h.nodes = []) :
    to_json g (Option.some h) = serialize g ∧
      (to_json g (Option.some h) = ⟨[], []⟩ ↔ g.nodes = [] ∧ g.edges = []) := by
  have h1 : to_json g (Option.some h) = serialize g := by
    show (if h.nodes.length ≠ 0 then serialize h else serialize g) = serialize g
    rw [hemp]
    simp
  refine ⟨h1, ?_⟩
  rw [h1]
  unfold serialize
  constructor
  · intro he
    have hn := congrArg Snapshot.nodes he
    have hl := congrArg Snapshot.links he
    simp only [List.map_eq_nil_iff] at hn hl
    exact ⟨hn, hl⟩
  · rintro ⟨hn, he⟩
    rw [hn, he]
    rfl

/-- C10 witness: serializing a nonempty engine graph with an explicitly
supplied empty graph argument yields the engine graph's own snapshot. -/
theorem to_json_empty_arg_falls_back_witness :
    to_json exampleGraph (Option.some Graph.empty) = serialize exampleGraph :=
  (to_json_empty_arg_falls_back exampleGraph Graph.empty rfl).1

/-!  C3. -/

/-- C3: after any sequence of engine operations (reset, add_entities,
add_relations, infer_relations_from_entities, build_from_document), the
node and edge counts reported by `stats` equal the lengths of the `nodes`
and `links` lists of `to_json` of the same state: statistics and
serialization reflect the same in-memory graph with no staleness. -/
theorem stats_matches_to_json (ops : List Op) :
    (stats (applyOps ops)).nodes = (to_json (applyOps ops) Option.none).nodes.length ∧
      (stats (applyOps ops)).edges = (to_json (applyOps ops) Option.none).links.length := by
  constructor
  · simp [stats, to_json, serialize]
  · simp [stats, to_json, serialize]

/-!  C4. -/

/-- C4: re-inserting a record with the same (type, display text) pair via
`add_entities` is a no-op: the whole graph (hence `stats().nodes`) is
unchanged and the stored node still carries the meta of the first
insertion; the second record's meta is discarded. -/
theorem add_entities_idempotent (g : Graph) (ty : String)
    (item1 item2 : Record) (n : String)
    (h1 : displayText item1 = Option.some n)
    (h2 : displayText item2 = Option.some n)
    (h3 : g.hasNode (node_id n ty) = false) :
    add_entities (add_entities g [(ty, [item1])]) [(ty, [item2])] =
        add_entities g [(ty, [item1])] ∧
      (stats (add_entities (add_entities g [(ty, [item1])]) [(ty, [item2])])).nodes =
        (stats (add_entities g [(ty, [item1])])).nodes ∧
      List.find? (fun p => p.1 == node_id n ty)
          (add_entities g [(ty, [item1])]).nodes =
        Option.some (node_id n ty,
          ⟨Option.some n, Option.some ty, Option.some (metaOf item1)⟩) := by
  have e1 : add_entities g [(ty, [item1])] =
      { g with nodes := g.nodes ++
          [(node_id n ty,
            ⟨Option.some n, Option.some ty, Option.some (metaOf item1)⟩)] } := by
    show List.foldl (addEntityItem ty) g [item1] = _
    simp [addEntityItem, h1, h3]
  have hmem : (add_entities g [(ty, [item1])]).hasNode (node_id n ty) = true := by
    rw [e1]
    unfold Graph.hasNode
    simp [List.any_append]
  have hid : add_entities (add_entities g [(ty, [item1])]) [(ty, [item2])] =
      add_entities g [(ty, [item1])] := by
    show List.foldl (addEntityItem ty) (add_entities g [(ty, [item1])]) [item2] = _
    simp [addEntityItem, h2, hmem]
  refine ⟨hid, by rw [hid], ?_⟩
  rw [e1]
  have hnone : List.find? (fun p => p.1 == node_id n ty) g.nodes = Option.none := by
    rw [List.find?_eq_none]
    intro p hp hcontra
    have hany : g.nodes.any (fun q => q.1 == node_id n ty) = true :=
      List.any_eq_true.mpr ⟨p, hp, hcontra⟩
    unfold Graph.hasNode at h3
    rw [hany] at h3
    exact absurd h3 (by simp)
  rw [List.find?_append, hnone]
  simp

/-- C4 witness: inserting `(case, A)` twice with different auxiliary meta
keeps the graph of the first insertion, meta included. -/
theorem add_entities_idempotent_witness :
    add_entities (add_entities Graph.empty [("case", [[("text", "A"), ("k", "1")]])])
        [("case", [[("text", "A"), ("k", "2")]])] =
      add_entities Graph.empty [("case", [[("text", "A"), ("k", "1")]])] :=
  (add_entities_idempotent Graph.empty "case" [("text", "A"), ("k", "1")]
    [("text", "A"), ("k", "2")] "A" (by decide) (by decide) (by decide)).1

/-!  C1. -/

theorem addEdge_edges (g : Graph) (s t : String) (ty : Option String) :
    (g.addEdge s t ty).edges = g.edges ++ [⟨s, t, ty⟩] := by
  unfold Graph.addEdge
  dsimp only
  rw [apply_ite Graph.edges, apply_ite Graph.edges]
  simp

theorem foldl_addEdge_edges {α : Type} (step : Graph → α → Graph)
    (f : α → List Edge) (hstep : ∀ g x, (step g x).edges = g.edges ++ f x) :
    ∀ (l : List α) (g : Graph),
      (l.foldl step g).edges = g.edges ++ (l.map f).flatten := by
  intro l
  induction l with
  | nil => intro g; simp
  | cons x xs ih =>
    intro g
    rw [List.foldl_cons, ih, hstep]
    simp [List.append_assoc]

theorem foldl_addEdge_edges_single {α : Type} (step : Graph → α → Graph)
    (e : α → Edge) (hstep : ∀ g x, (step g x).edges = g.edges ++ [e x]) :
    ∀ (l : List α) (g : Graph),
      (l.foldl step g).edges = g.edges ++ l.map e := by
  intro l
  induction l with
  | nil => intro g; simp
  | cons x xs ih =>
    intro g
    rw [List.foldl_cons, ih, hstep]
    simp [List.append_assoc]

theorem inferCase_edges (S Co P D : List Record) (g : Graph) (c : Record) :
    (inferCase S Co P D g c).edges = g.edges ++ inferredEdgesFor S Co P D c := by
  unfold inferCase inferredEdgesFor
  rw [foldl_addEdge_edges_single _
      (fun d => ⟨inferNodeId "case" c, inferNodeId "date" d, Option.some "decided_on"⟩)
      (fun g d => addEdge_edges g _ _ _),
    foldl_addEdge_edges_single _
      (fun p => ⟨inferNodeId "party" p, inferNodeId "case" c, Option.some "party_in"⟩)
      (fun g p => addEdge_edges g _ _ _),
    foldl_addEdge_edges_single _
      (fun co => ⟨inferNodeId "case" c, inferNodeId "court" co, Option.some "heard_by"⟩)
      (fun g co => addEdge_edges g _ _ _),
    foldl_addEdge_edges_single _
      (fun st => ⟨inferNodeId "case" c, inferNodeId "statute" st, Option.some "cites"⟩)
      (fun g st => addEdge_edges g _ _ _)]
  simp [List.append_assoc]

theorem sum_map_const_length {α : Type} (l : List α) (k : Nat) :
    (l.map (fun _ => k)).sum = l.length * k := by
  induction l with
  | nil => simp
  | cons x xs ih => simp [ih, Nat.succ_mul, Nat.add_comm]

theorem inferredEdgesFor_length (S Co P D : List Record) (c : Record) :
    (inferredEdgesFor S Co P D c).length =
      S.length + Co.length + P.length + D.length := by
  simp [inferredEdgesFor]
  omega

/-- C1: for every prior graph state and every entities mapping,
`infer_relations_from_entities` appends, for each record under the key
`cases` in order, one `cites` edge to every statute, one `heard_by` edge to
every court, one `party_in` edge from every party, and one `decided_on`
edge to every date (records under other keys are untouched); in
particular it adds exactly `C*(S+Co+P+D)` edges. -/
theorem infer_relations_cross_product (g : Graph)
    (entities : List (String × List Record)) :
    (infer_relations_from_entities g entities).edges =
        g.edges ++
          ((entGet entities "cases").map
            (inferredEdgesFor (entGet entities "statutes")
              (entGet entities "courts") (entGet entities "parties")
              (entGet entities "dates"))).flatten ∧
      (infer_relations_from_entities g entities).edges.length =
        g.edges.length +
          (entGet entities "cases").length *
            ((entGet entities "statutes").length +
              (entGet entities "courts").length +
              (entGet entities "parties").length +
              (entGet entities "dates").length) := by
  have hmain : (infer_relations_from_entities g entities).edges =
      g.edges ++
        ((entGet entities "cases").map
          (inferredEdgesFor (entGet entities "statutes")
            (entGet entities "courts") (entGet entities "parties")
            (entGet entities "dates"))).flatten := by
    unfold infer_relations_from_entities
    exact foldl_addEdge_edges _ _
      (fun g c => inferCase_edges _ _ _ _ g c) _ g
  refine ⟨hmain, ?_⟩
  rw [hmain, List.length_append, List.length_flatten, List.map_map]
  have hconst : (List.map
      (List.length ∘
        inferredEdgesFor (entGet entities "statutes") (entGet entities "courts")
          (entGet entities "parties") (entGet entities "dates"))
      (entGet entities "cases")) =
      (entGet entities "cases").map (fun _ =>
        (entGet entities "statutes").length + (entGet entities "courts").length +
          (entGet entities "parties").length + (entGet entities "dates").length) := by
    apply List.map_congr_left
    intro c _
    exact inferredEdgesFor_length _ _ _ _ c
  rw [hconst, sum_map_const_length]

/-!  C8. -/

/-- C8: for every negative depth, `get_subgraph` performs zero expansion
rounds (Python `range` of a negative int is empty) and returns exactly the
depth-zero snapshot; moreover every link of the depth-zero snapshot is a
self-loop on the center, so the result is never larger than depth zero and
the call never fails and never diverges. -/
theorem get_subgraph_negative_depth (g : Graph) (label : String)
    (ty : Option String) (d : Int) (hd : d < 0) :
    get_subgraph g label ty d = get_subgraph g label ty 0 ∧
      ∀ e ∈ (get_subgraph g label ty 0).links, e.source = e.target := by
  constructor
  · unfold get_subgraph
    rw [Int.toNat_of_nonpos hd.le]
    rfl
  · unfold get_subgraph
    cases hc : centerCandidates g label ty with
    | nil =>
      intro e he
      simp at he
    | cons c rest =>
      intro e he
      have hcmem : c ∈ g.nodes := by
        have h1 : c ∈ centerCandidates g label ty := by
          rw [hc]
          exact List.mem_cons_self c rest
        exact List.mem_of_mem_filter h1
      have hnodes : c ∈ (g.inducedOn {c.1}).nodes := by
        unfold Graph.inducedOn
        exact List.mem_filter.mpr ⟨hcmem, by simp⟩
      have hne : (g.inducedOn {c.1}).nodes.length ≠ 0 := by
        have h2 := List.ne_nil_of_mem hnodes
        simpa [List.length_eq_zero] using h2
      have htj : to_json g (Option.some (g.inducedOn {c.1})) =
          serialize (g.inducedOn {c.1}) := by
        show (if (g.inducedOn {c.1}).nodes.length ≠ 0
            then serialize (g.inducedOn {c.1}) else serialize g) =
          serialize (g.inducedOn {c.1})
        rw [if_pos hne]
      have he2 : e ∈ (to_json g (Option.some (g.inducedOn
          ((traverse g (Int.toNat 0) ({c.1}, {c.1})).1)))).links := he
      have htrav : (traverse g (Int.toNat 0) ({c.1}, {c.1})).1 =
          ({c.1} : Finset String) := rfl
      rw [htrav, htj] at he2
      unfold serialize Graph.inducedOn at he2
      simp only [List.mem_map] at he2
      obtain ⟨ed, hed, rfl⟩ := he2
      have h3 := List.mem_filter.mp hed
      have h4 := of_decide_eq_true h3.2
      have h5 : ed.source = c.1 := by simpa using h4.1
      have h6 : ed.target = c.1 := by simpa using h4.2
      show ed.source = ed.target
      rw [h5, h6]

/-- C8 witness: on a concrete graph, depth `-1` returns the depth-zero
snapshot around `case:A`. -/
theorem get_subgraph_negative_depth_witness :
    get_subgraph exampleGraph "A" Option.none (-1) =
      get_subgraph exampleGraph "A" Option.none 0 :=
  (get_subgraph_negative_depth exampleGraph "A" Option.none (-1) (by decide)).1

/-!  C9. -/

theorem hasNode_append_of_hasNode (g : Graph) (l : List (String × NodeData))
    (x : String) (h : g.hasNode x = true) :
    (Graph.mk (g.nodes ++ l) g.edges).hasNode x = true := by
  unfold Graph.hasNode at h ⊢
  rw [List.any_append, h]
  rfl

theorem addEdge_hasNode_mono (g : Graph) (s t x : String) (ty : Option String)
    (h : g.hasNode x = true) : (g.addEdge s t ty).hasNode x = true := by
  unfold Graph.addEdge
  dsimp only
  by_cases h1 : g.hasNode s = true
  · rw [if_pos h1]
    by_cases h2 : g.hasNode t = true
    · rw [if_pos h2]
      exact h
    · rw [if_neg h2]
      exact hasNode_append_of_hasNode g _ x h
  · rw [if_neg h1]
    have h3 := hasNode_append_of_hasNode g [(s, NodeData.empty)] x h
    by_cases h2 : (Graph.mk (g.nodes ++ [(s, NodeData.empty)]) g.edges).hasNode t = true
    · rw [if_pos h2]
      exact h3
    · rw [if_neg h2]
      have h4 := hasNode_append_of_hasNode
        (Graph.mk (g.nodes ++ [(s, NodeData.empty)]) g.edges)
        [(t, NodeData.empty)] x h3
      simpa [List.append_assoc] using h4

theorem hasNode_self_append (g : Graph) (x : String) (d : NodeData) :
    (Graph.mk (g.nodes ++ [(x, d)]) g.edges).hasNode x = true := by
  unfold Graph.hasNode
  rw [List.any_append]
  simp

theorem addEdge_hasNode_endpoints (g : Graph) (s t : String) (ty : Option String) :
    (g.addEdge s t ty).hasNode s = true ∧ (g.addEdge s t ty).hasNode t = true := by
  unfold Graph.addEdge
  dsimp only
  by_cases h1 : g.hasNode s = true
  · rw [if_pos h1]
    by_cases h2 : g.hasNode t = true
    · rw [if_pos h2]
      exact ⟨h1, h2⟩
    · rw [if_neg h2]
      exact ⟨hasNode_append_of_hasNode g _ s h1, hasNode_self_append g t _⟩
  · rw [if_neg h1]
    have hs : (Graph.mk (g.nodes ++ [(s, NodeData.empty)]) g.edges).hasNode s = true :=
      hasNode_self_append g s _
    by_cases h2 : (Graph.mk (g.nodes ++ [(s, NodeData.empty)]) g.edges).hasNode t = true
    · rw [if_pos h2]
      exact ⟨hs, h2⟩
    · rw [if_neg h2]
      constructor
      · have h4 := hasNode_append_of_hasNode
          (Graph.mk (g.nodes ++ [(s, NodeData.empty)]) g.edges)
          [(t, NodeData.empty)] s hs
        simpa [List.append_assoc] using h4
      · exact hasNode_self_append (Graph.mk (g.nodes ++ [(s, NodeData.empty)]) g.edges) t _
  
theorem edgesClosed_addEdge (g : Graph) (s t : String) (ty : Option String)
    (h : edgesClosed g) : edgesClosed (g.addEdge s t ty) := by
  intro e he
  rw [addEdge_edges] at he
  rcases List.mem_append.mp he with hold | hnew
  · obtain ⟨h1, h2⟩ := h e hold
    exact ⟨addEdge_hasNode_mono g s t e.source ty h1,
      addEdge_hasNode_mono g s t e.target ty h2⟩
  · have : e = ⟨s, t, ty⟩ := by simpa using hnew
    subst this
    exact addEdge_hasNode_endpoints g s t ty

theorem edgesClosed_foldl {α : Type} (step : Graph → α → Graph)
    (hstep : ∀ g x, edgesClosed g → edgesClosed (step g x)) :
    ∀ (l : List α) (g : Graph), edgesClosed g → edgesClosed (l.foldl step g) := by
  intro l
  induction l with
  | nil => intro g h; exact h
  | cons x xs ih =>
    intro g h
    exact ih (step g x) (hstep g x h)

theorem edgesClosed_empty : edgesClosed Graph.empty := by
  intro e he
  simp [Graph.empty] at he

theorem addEntityItem_edges (ty : String) (g : Graph) (it : Record) :
    (addEntityItem ty g it).edges = g.edges := by
  unfold addEntityItem
  cases displayText it with
  | none => rfl
  | some n =>
    dsimp only
    split <;> rfl

theorem addEntityItem_hasNode_mono (ty : String) (g : Graph) (it : Record)
    (x : String) (h : g.hasNode x = true) :
    (addEntityItem ty g it).hasNode x = true := by
  unfold addEntityItem
  cases displayText it with
  | none => exact h
  | some n =>
    dsimp only
    split
    · exact h
    · exact hasNode_append_of_hasNode g _ x h

theorem edgesClosed_addEntityItem (ty : String) (g : Graph) (it : Record)
    (h : edgesClosed g) : edgesClosed (addEntityItem ty g it) := by
  intro e he
  rw [addEntityItem_edges] at he
  obtain ⟨h1, h2⟩ := h e he
  exact ⟨addEntityItem_hasNode_mono ty g it e.source h1,
    addEntityItem_hasNode_mono ty g it e.target h2⟩

theorem edgesClosed_add_entities (g : Graph)
    (entities : List (String × List Record)) (h : edgesClosed g) :
    edgesClosed (add_entities g entities) := by
  unfold add_entities
  refine edgesClosed_foldl _ ?_ entities g h
  intro g p hg
  exact edgesClosed_foldl _ (fun g it hit => edgesClosed_addEntityItem p.1 g it hit) p.2 g hg

theorem edgesClosed_add_relations (g : Graph)
    (relations : List (String × String × String)) (h : edgesClosed g) :
    edgesClosed (add_relations g relations) := by
  unfold add_relations
  refine edgesClosed_foldl _ ?_ relations g h
  intro g r hg
  exact edgesClosed_addEdge g r.1 r.2.1 (Option.some r.2.2) hg

theorem edgesClosed_inferCase (S Co P D : List Record) (g : Graph) (c : Record)
    (h : edgesClosed g) : edgesClosed (inferCase S Co P D g c) := by
  unfold inferCase
  refine edgesClosed_foldl _ ?_ D _ ?_
  · intro g d hg
    exact edgesClosed_addEdge g _ _ _ hg
  refine edgesClosed_foldl _ ?_ P _ ?_
  · intro g p hg
    exact edgesClosed_addEdge g _ _ _ hg
  refine edgesClosed_foldl _ ?_ Co _ ?_
  · intro g co hg
    exact edgesClosed_addEdge g _ _ _ hg
  refine edgesClosed_foldl _ ?_ S _ ?_
  · intro g st hg
    exact edgesClosed_addEdge g _ _ _ hg
  exact h

theorem edgesClosed_infer (g : Graph) (entities : List (String × List Record))
    (h : edgesClosed g) : edgesClosed (infer_relations_from_entities g entities) := by
  unfold infer_relations_from_entities
  refine edgesClosed_foldl _ ?_ _ g h
  intro g c hg
  exact edgesClosed_inferCase _ _ _ _ g c hg

theorem edgesClosed_applyOp (g : Graph) (op : Op) (h : edgesClosed g) :
    edgesClosed (applyOp g op) := by
  cases op with
  | reset => exact edgesClosed_empty
  | addEnts e => exact edgesClosed_add_entities g e h
  | addRels r => exact edgesClosed_add_relations g r h
  | infer e => exact edgesClosed_infer g e h
  | build d e =>
    exact edgesClosed_infer _ e (edgesClosed_add_entities _ e edgesClosed_empty)

theorem edgesClosed_applyOps (ops : List Op) : edgesClosed (applyOps ops) := by
  unfold applyOps
  exact edgesClosed_foldl applyOp edgesClosed_applyOp ops Graph.empty edgesClosed_empty

theorem addEdge_nodes_sub (g : Graph) (s t : String) (ty : Option String) :
    ∀ p ∈ (g.addEdge s t ty).nodes, p ∈ g.nodes ∨ p.2 = NodeData.empty := by
  intro p hp
  unfold Graph.addEdge at hp
  dsimp only at hp
  by_cases h1 : g.hasNode s = true
  · rw [if_pos h1] at hp
    by_cases h2 : g.hasNode t = true
    · rw [if_pos h2] at hp
      exact Or.inl hp
    · rw [if_neg h2] at hp
      rcases List.mem_append.mp hp with h | h
      · exact Or.inl h
      · right
        have : p = (t, NodeData.empty) := by simpa using h
        rw [this]
  · rw [if_neg h1] at hp
    by_cases h2 : (Graph.mk (g.nodes ++ [(s, NodeData.empty)]) g.edges).hasNode t = true
    · rw [if_pos h2] at hp
      rcases List.mem_append.mp hp with h | h
      · exact Or.inl h
      · right
        have : p = (s, NodeData.empty) := by simpa using h
        rw [this]
    · rw [if_neg h2] at hp
      rcases List.mem_append.mp hp with h | h
      · rcases List.mem_append.mp h with h3 | h3
        · exact Or.inl h3
        · right
          have : p = (s, NodeData.empty) := by simpa using h3
          rw [this]
      · right
        have : p = (t, NodeData.empty) := by simpa using h
        rw [this]

/-- C9: in every state reachable by a sequence of engine operations, both
endpoints of every edge are nodes of the graph (no truly dangling edges):
`add_edge` implicitly creates any missing endpoint as a node carrying no
label, type, or meta attributes.  Such implicit creation can increase
`stats().nodes`; implicitly created nodes serialize with null label and
type and empty meta, and are counted under `unknown` in `by_type`. -/
theorem dangling_edges_never_exist :
    (∀ ops : List Op, edgesClosed (applyOps ops)) ∧
      (∀ (g : Graph) (s t : String) (ty : Option String),
        ∀ p ∈ (g.addEdge s t ty).nodes, p ∈ g.nodes ∨ p.2 = NodeData.empty) ∧
      (stats (add_relations Graph.empty [("a", "b", "rel")])).nodes = 2 ∧
      to_json (add_relations Graph.empty [("a", "b", "rel")]) Option.none =
        ⟨[⟨"a", Option.none, Option.none, []⟩, ⟨"b", Option.none, Option.none, []⟩],
          [⟨"a", "b", Option.some "rel"⟩]⟩ ∧
      nodes_by_type (add_relations Graph.empty [("a", "b", "rel")]) =
        [("unknown", 2)] := by
  refine ⟨edgesClosed_applyOps, addEdge_nodes_sub, ?_, ?_, ?_⟩
  · decide
  · decide
  · decide

/-- C9 witness: the invariant applied to a concrete reachable state and a
concrete edge of it shows its source endpoint is a node. -/
theorem dangling_edges_never_exist_witness :
    (applyOps [Op.addRels [("a", "b", "rel")]]).hasNode "a" = true :=
  ((dangling_edges_never_exist.1 [Op.addRels [("a", "b", "rel")]])
    ⟨"a", "b", Option.some "rel"⟩ (by decide)).1

/-!  C2. -/

/-- C2 counterexample: in the concrete graph with the single edge
`case:A -> statute:B`, running the `get_subgraph` loop from center
`case:A` re-includes the center (an already-visited node) in the frontier
after round 2, even though round 2 discovers no new node: the next
frontier is all neighbors of the current frontier, not the
newly-discovered set, and it does not become empty. -/
theorem frontier_revisits_center_counterexample :
    "case:A" ∈ (traverse exampleGraph 2 ({"case:A"}, {"case:A"})).2 ∧
      (traverse exampleGraph 2 ({"case:A"}, {"case:A"})).1 =
        (traverse exampleGraph 1 ({"case:A"}, {"case:A"})).1 := by
  constructor
  · decide
  · decide

theorem frontierStep_mono (g : Graph) (a b : Finset String) (h : a ⊆ b) :
    frontierStep g a ⊆ frontierStep g b :=
  Finset.biUnion_subset_biUnion_of_subset_left _ h

theorem frontierStep_union (g : Graph) (a b : Finset String) :
    frontierStep g (a ∪ b) = frontierStep g a ∪ frontierStep g b := by
  unfold frontierStep
  ext x
  simp only [Finset.mem_biUnion, Finset.mem_union]
  constructor
  · rintro ⟨y, hy | hy, hx⟩
    · exact Or.inl ⟨y, hy, hx⟩
    · exact Or.inr ⟨y, hy, hx⟩
  · rintro (⟨y, hy, hx⟩ | ⟨y, hy, hx⟩)
    · exact ⟨y, Or.inl hy, hx⟩
    · exact ⟨y, Or.inr hy, hx⟩

theorem traverse_state (g : Graph) (c : String) :
    ∀ (k j : Nat), traverse g k (aSeq g c j, fSeq g c j) =
      (aSeq g c (j + k), fSeq g c (j + k)) := by
  intro k
  induction k with
  | zero => intro j; rfl
  | succ k ih =>
    intro j
    have hstep : traverse g (k + 1) (aSeq g c j, fSeq g c j) =
        traverse g k (aSeq g c j ∪ frontierStep g (fSeq g c j),
          frontierStep g (fSeq g c j)) := rfl
    have h1 : aSeq g c j ∪ frontierStep g (fSeq g c j) = aSeq g c (j + 1) := rfl
    have h2 : frontierStep g (fSeq g c j) = fSeq g c (j + 1) := rfl
    rw [hstep, h1, h2, ih (j + 1)]
    have h3 : j + 1 + k = j + (k + 1) := by omega
    rw [h3]

theorem ball_mono_succ (g : Graph) (c : String) (k : Nat) :
    ball g c k ⊆ ball g c (k + 1) :=
  Finset.subset_union_left

theorem fSeq_sub_ball (g : Graph) (c : String) :
    ∀ k, fSeq g c k ⊆ ball g c k := by
  intro k
  induction k with
  | zero => exact Finset.Subset.refl _
  | succ k ih =>
    show frontierStep g (fSeq g c k) ⊆ ball g c k ∪ frontierStep g (ball g c k)
    exact (frontierStep_mono g _ _ ih).trans Finset.subset_union_right

theorem aSeq_sub_ball (g : Graph) (c : String) :
    ∀ k, aSeq g c k ⊆ ball g c k := by
  intro k
  induction k with
  | zero => exact Finset.Subset.refl _
  | succ k ih =>
    show aSeq g c k ∪ fSeq g c (k + 1) ⊆ ball g c (k + 1)
    exact Finset.union_subset (ih.trans (ball_mono_succ g c k))
      (fSeq_sub_ball g c (k + 1))

theorem aSeq_mono_succ (g : Graph) (c : String) (k : Nat) :
    aSeq g c k ⊆ aSeq g c (k + 1) :=
  Finset.subset_union_left

theorem step_aSeq_sub (g : Graph) (c : String) :
    ∀ k, frontierStep g (aSeq g c k) ⊆ aSeq g c (k + 1) := by
  intro k
  induction k with
  | zero =>
    show frontierStep g (fSeq g c 0) ⊆ aSeq g c 0 ∪ fSeq g c 1
    exact Finset.subset_union_right
  | succ k ih =>
    show frontierStep g (aSeq g c k ∪ fSeq g c (k + 1)) ⊆ aSeq g c (k + 2)
    rw [frontierStep_union]
    have h1 : frontierStep g (fSeq g c (k + 1)) = fSeq g c (k + 2) := rfl
    rw [h1]
    exact Finset.union_subset (ih.trans (aSeq_mono_succ g c (k + 1)))
      Finset.subset_union_right

theorem ball_sub_aSeq (g : Graph) (c : String) :
    ∀ k, ball g c k ⊆ aSeq g c k := by
  intro k
  induction k with
  | zero => exact Finset.Subset.refl _
  | succ k ih =>
    show ball g c k ∪ frontierStep g (ball g c k) ⊆ aSeq g c (k + 1)
    exact Finset.union_subset (ih.trans (aSeq_mono_succ g c k))
      ((frontierStep_mono g _ _ ih).trans (step_aSeq_sub g c k))

/-- C2 amended: the next frontier is the set of all undirected neighbors
of the current frontier, which can re-include already-visited nodes
(including the center), so the loop always runs its full `depth` rounds;
nevertheless the accumulated node set after `k` rounds equals the
undirected ball of radius `k` around the center — exactly the set a
frontier restricted to newly-discovered nodes would have accumulated. -/
theorem traverse_nodes_eq_ball (g : Graph) (c : String) (k : Nat) :
    (traverse g k ({c}, {c})).1 = ball g c k := by
  have h0 : (({c} : Finset String), ({c} : Finset String)) =
      (aSeq g c 0, fSeq g c 0) := rfl
  rw [h0, traverse_state g c k 0]
  show aSeq g c (0 + k) = ball g c k
  rw [Nat.zero_add]
  exact Finset.Subset.antisymm (aSeq_sub_ball g c k) (ball_sub_aSeq g c k)
